import Mathlib

/-!
Verification of the Edge-AI-Video-Summarizer backend against its
natural-language specification.  Each definition is a shallow embedding of
a function of `backend/app`; times are modelled as rationals and Python
strings as lists of characters, so that every definition computes inside
the kernel.  Loops are embedded as structurally recursive functions on an
explicit iteration bound that provably exceeds the number of iterations
the Python loop can perform, so the bound is never exhausted.
-/

set_option maxHeartbeats 1600000
set_option allowUnsafeReducibility true

attribute [local semireducible] Rat.sub Rat.add Rat.mul Rat.inv Rat.ofScientific

namespace EdgeVideo

/-- A Python string, modelled as its list of characters. -/
abbrev PyStr := List Char

/-- Embed a Lean string literal as a `PyStr`. -/
def pystr (s : String) : PyStr := s.data

/-- Python `str.strip()`: remove leading and trailing whitespace. -/
def pyStrip (s : PyStr) : PyStr :=
  ((s.dropWhile Char.isWhitespace).reverse.dropWhile Char.isWhitespace).reverse

/-- Python `str.endswith(suffix)`. -/
def pyEndsWith (s suffix : PyStr) : Bool := suffix.isSuffixOf s

/-! ## Time-window chunker (`backend/app/chunking_v2.py`) -/

/-- A raw transcript segment as handed to `segments_to_time_chunks`:
`start`/`end` may be absent (`None`), the text may be blank. -/
structure RawSeg where
  startTime : Option ℚ
  endTime : Option ℚ
  text : PyStr
  deriving Repr, DecidableEq

/-- A filtered segment: positive-length, with non-empty stripped text. -/
structure Seg where
  s : ℚ
  e : ℚ
  text : PyStr
  deriving Repr, DecidableEq

instance : Inhabited Seg := ⟨⟨0, 0, []⟩⟩

/-- Parameters of `segments_to_time_chunks`. -/
structure ChunkParams where
  target_window_seconds : ℚ
  max_window_seconds : ℚ
  min_window_seconds : ℚ
  overlap_seconds : ℚ
  silence_gap_seconds : ℚ
  deriving Repr, DecidableEq

/-- An emitted chunk (`start_time`, `end_time`, joined text). -/
structure Chunk where
  start_time : ℚ
  end_time : ℚ
  text : PyStr
  deriving Repr, DecidableEq

/-- `_is_natural_boundary`: stripped text ends in sentence punctuation. -/
def isNaturalBoundary (text : PyStr) : Bool :=
  let t := pyStrip text
  if t.isEmpty then false
  else
    [pystr "。", pystr "！", pystr "？", pystr ".", pystr "!", pystr "?",
      pystr "；", pystr ";"].any fun suf => pyEndsWith t suf

/-- The input-normalisation pass at the top of `segments_to_time_chunks`:
drop segments with a missing bound, non-positive length, or blank text. -/
def filterSegs (segments : List RawSeg) : List Seg :=
  segments.filterMap fun seg =>
    match seg.startTime, seg.endTime with
    | some s, some e =>
      if e ≤ s then none
      else
        let t := pyStrip seg.text
        if t.isEmpty then none else some ⟨s, e, t⟩
    | _, _ => none

/-- `segs[m].start` (with a harmless default out of range). -/
def segS (segs : List Seg) (m : Nat) : ℚ := (segs.getD m default).s

/-- `segs[m].end` (with a harmless default out of range). -/
def segE (segs : List Seg) (m : Nat) : ℚ := (segs.getD m default).e

/-- `segs[m].text`. -/
def segT (segs : List Seg) (m : Nat) : PyStr := (segs.getD m default).text

/-- The `last_boundary_j` update performed at the top of each iteration of
the inner loop (only when the current length has reached the target
window): remember `j` if the last text ends at a natural boundary or if a
silence gap follows segment `j`. -/
def boundaryCandidate (segs : List Seg) (p : ChunkParams) (j : Nat)
    (curLen : ℚ) (texts : List PyStr) (lb : Option Nat) : Option Nat :=
  if p.target_window_seconds ≤ curLen then
    let lbA := if isNaturalBoundary (texts.getLastD []) then some j else lb
    if j + 1 < segs.length ∧
        p.silence_gap_seconds ≤ segS segs (j + 1) - segE segs j then
      some j
    else lbA
  else lb

/-- The inner `while True` loop of `segments_to_time_chunks`: grow the
current window `[i..j]`, remembering the latest natural/silence boundary,
and stop on a boundary cut, on reaching `max_window_seconds`, or at the
end of input.  Returns the final `(j, end_time, texts)`.  The `fuel`
argument bounds the iteration count; callers pass `segs.length - j`,
which is never exhausted because `j` increases by one per iteration and
the loop stops once `j + 1 ≥ segs.length`. -/
def growWindow (segs : List Seg) (p : ChunkParams) (i : Nat) :
    Nat → Nat → ℚ → List PyStr → Option Nat → Nat × ℚ × List PyStr
  | 0, j, endT, texts, _ => (j, endT, texts)
  | fuel + 1, j, endT, texts, lb =>
    let n := segs.length
    let curLen := endT - segS segs i
    let lb2 : Option Nat := boundaryCandidate segs p j curLen texts lb
    if p.target_window_seconds ≤ curLen ∧ p.min_window_seconds ≤ curLen ∧
        lb2.isSome = true then
      let b := lb2.getD j
      (b, segE segs b, ((segs.drop i).take (b + 1 - i)).map Seg.text)
    else if p.max_window_seconds ≤ curLen then
      (j, endT, texts)
    else if n ≤ j + 1 then
      (j, endT, texts)
    else
      growWindow segs p i fuel (j + 1) (segE segs (j + 1))
        (texts ++ [segT segs (j + 1)]) lb2

/-- The overlap rewind at the bottom of the outer loop:
`while k > i and segs[k-1].end > threshold: k -= 1`. -/
def rewindOverlap (segs : List Seg) (i : Nat) (thr : ℚ) : Nat → Nat
  | 0 => 0
  | k + 1 =>
    if i < k + 1 ∧ thr < segE segs k then rewindOverlap segs i thr k
    else k + 1

/-- The outer `while i < n` loop of `segments_to_time_chunks`.  The `fuel`
argument bounds the iteration count; the entry point passes
`segs.length`, which is never exhausted because `i` strictly increases
(`i = max(k, i+1)`). -/
def chunkLoop (segs : List Seg) (p : ChunkParams) : Nat → Nat → List Chunk
  | 0, _ => []
  | fuel + 1, i =>
    if i < segs.length then
      let r := growWindow segs p i (segs.length - i) i (segE segs i)
        [segT segs i] none
      let chunk : Chunk :=
        ⟨segS segs i, r.2.1, pyStrip (List.intercalate (pystr " ") r.2.2)⟩
      if segs.length ≤ r.1 + 1 then [chunk]
      else
        let thr := r.2.1 - p.overlap_seconds
        let k := rewindOverlap segs i thr r.1
        chunk :: chunkLoop segs p fuel (max k (i + 1))
    else []

/-- `segments_to_time_chunks` (`chunking_v2.py`). -/
def segments_to_time_chunks (segments : List RawSeg) (p : ChunkParams) :
    List Chunk :=
  let segs := filterSegs segments
  if segs.isEmpty then [] else chunkLoop segs p segs.length 0

/-- Boolean check of a relation on all adjacent pairs of a list. -/
def adjPairsB {α : Type} (r : α → α → Bool) : List α → Bool
  | [] => true
  | [_] => true
  | a :: b :: rest => r a b && adjPairsB r (b :: rest)

/-- Filtered segments are contiguous: each one starts no later than its
predecessor ends. -/
def segContiguousB (segs : List Seg) : Bool :=
  adjPairsB (fun a b => decide (b.s ≤ a.e)) segs

/-- Filtered segments have nondecreasing end times. -/
def segEndsMonoB (segs : List Seg) : Bool :=
  adjPairsB (fun a b => decide (a.e ≤ b.e)) segs

theorem adjPairsB_getD {α : Type} [Inhabited α] (r : α → α → Bool)
    (l : List α) (h : adjPairsB r l = true) :
    ∀ m, m + 1 < l.length →
      r (l.getD m default) (l.getD (m + 1) default) = true := by
  induction l with
  | nil => intro m hm; simp at hm
  | cons a t ih =>
    cases t with
    | nil => intro m hm; simp at hm
    | cons b rest =>
      rw [adjPairsB, Bool.and_eq_true] at h
      intro m hm
      cases m with
      | zero => simpa using h.1
      | succ m =>
        have := ih h.2 m (by simpa using hm)
        simpa using this

theorem segE_mono (segs : List Seg) (hmono : segEndsMonoB segs = true) :
    ∀ a b, a ≤ b → b < segs.length → segE segs a ≤ segE segs b := by
  intro a b
  induction b with
  | zero =>
    intro hab _
    interval_cases a
    exact le_refl _
  | succ b ihb =>
    intro hab hbn
    rcases Nat.lt_succ_iff_lt_or_eq.mp (Nat.lt_succ_of_le hab) with h | h
    · have step := adjPairsB_getD _ segs hmono b hbn
      have hstep : segE segs b ≤ segE segs (b + 1) := by
        simpa [segE] using of_decide_eq_true step
      exact le_trans (ihb (Nat.lt_succ_iff.mp h) (by omega)) hstep
    · exact h ▸ le_refl _

theorem rewindOverlap_le (segs : List Seg) (i : Nat) (thr : ℚ) :
    ∀ k, rewindOverlap segs i thr k ≤ k := by
  intro k
  induction k with
  | zero => simp [rewindOverlap]
  | succ k ih =>
    rw [rewindOverlap]
    split
    · exact le_trans ih (Nat.le_succ k)
    · exact le_refl _

theorem rewindOverlap_ge (segs : List Seg) (i : Nat) (thr : ℚ) :
    ∀ k, i ≤ k → i ≤ rewindOverlap segs i thr k := by
  intro k
  induction k with
  | zero => intro h; simpa [rewindOverlap] using h
  | succ k ih =>
    intro _
    rw [rewindOverlap]
    split
    · next hcond => exact ih (by omega)
    · omega

/-- Invariant of the inner loop: every strict prefix of the produced window
was shorter than `max_window_seconds` before the final extension, the
returned index stays in `[i, n)`, and the returned end time is the end of
the returned index's segment. -/
theorem growWindow_spec (segs : List Seg) (p : ChunkParams) (i : Nat) :
    ∀ fuel j endT texts lb,
      i ≤ j → j < segs.length → segs.length ≤ fuel + j →
      endT = segE segs j →
      (∀ m, i ≤ m → m < j →
        segE segs m - segS segs i < p.max_window_seconds) →
      (∀ b, lb = some b → i ≤ b ∧ b ≤ j) →
      i ≤ (growWindow segs p i fuel j endT texts lb).1 ∧
      (growWindow segs p i fuel j endT texts lb).1 < segs.length ∧
      (growWindow segs p i fuel j endT texts lb).2.1 =
        segE segs (growWindow segs p i fuel j endT texts lb).1 ∧
      (∀ m, i ≤ m → m < (growWindow segs p i fuel j endT texts lb).1 →
        segE segs m - segS segs i < p.max_window_seconds) := by
  intro fuel
  induction fuel with
  | zero => intro j endT texts lb h1 h2 h3 _ _ _; omega
  | succ fuel ih =>
    intro j endT texts lb hij hjn hfuel hend hpre hlb
    rw [growWindow]
    simp only []
    have hlb2 : ∀ b,
        boundaryCandidate segs p j (endT - segS segs i) texts lb = some b →
          i ≤ b ∧ b ≤ j := by
      intro b hb
      rw [boundaryCandidate] at hb
      split at hb
      · simp only [] at hb
        split at hb
        · cases hb; omega
        · split at hb
          · cases hb; omega
          · exact hlb b hb
      · exact hlb b hb
    split_ifs with hc1 hc2 hc3
    · obtain ⟨b, hb⟩ := Option.isSome_iff_exists.mp hc1.2.2
      have hbb := hlb2 b hb
      rw [hb]
      simp only [Option.getD_some]
      refine ⟨hbb.1, by omega, trivial, ?_⟩
      intro m him hmb
      exact hpre m him (by omega)
    · exact ⟨hij, hjn, hend, hpre⟩
    · exact ⟨hij, hjn, hend, hpre⟩
    · refine ih (j + 1) (segE segs (j + 1)) _ _ (by omega) (by omega)
        (by omega) rfl ?_ ?_
      · intro m him hmj
        rcases Nat.lt_succ_iff_lt_or_eq.mp hmj with h | h
        · exact hpre m him h
        · subst h
          rw [← hend]
          exact not_le.mp hc2
      · intro b hb
        exact ⟨(hlb2 b hb).1, le_trans (hlb2 b hb).2 (Nat.le_succ j)⟩


/-- Every chunk the outer loop emits spans a contiguous index range
`[a, b]` of the filtered segments, and every strict prefix of that range
was below `max_window_seconds`. -/
theorem chunkLoop_mem (segs : List Seg) (p : ChunkParams) :
    ∀ fuel i c, c ∈ chunkLoop segs p fuel i →
      ∃ a b, i ≤ a ∧ a ≤ b ∧ b < segs.length ∧
        c.start_time = segS segs a ∧ c.end_time = segE segs b ∧
        ∀ m, a ≤ m → m < b →
          segE segs m - segS segs a < p.max_window_seconds := by
  intro fuel
  induction fuel with
  | zero => intro i c hc; simp [chunkLoop] at hc
  | succ fuel ih =>
    intro i c hc
    rw [chunkLoop] at hc
    by_cases hin : i < segs.length
    · rw [if_pos hin] at hc
      simp only [] at hc
      have hspec := growWindow_spec segs p i (segs.length - i) i
        (segE segs i) [segT segs i] none (le_refl i) hin (by omega) rfl
        (by intro m h1 h2; omega) (by intro b hb; cases hb)
      split at hc
      · rw [List.mem_singleton] at hc
        subst hc
        exact ⟨i, _, le_refl i, hspec.1, hspec.2.1, rfl, hspec.2.2.1,
          hspec.2.2.2⟩
      · rw [List.mem_cons] at hc
        rcases hc with hc | hc
        · subst hc
          exact ⟨i, _, le_refl i, hspec.1, hspec.2.1, rfl, hspec.2.2.1,
            hspec.2.2.2⟩
        · obtain ⟨a, b, hia, hab, hbn, hs, he, hp⟩ := ih _ c hc
          refine ⟨a, b, ?_, hab, hbn, hs, he, hp⟩
          have := Nat.le_max_right
            (rewindOverlap segs i
              ((growWindow segs p i (segs.length - i) i (segE segs i)
                [segT segs i] none).2.1 - p.overlap_seconds)
              (growWindow segs p i (segs.length - i) i (segE segs i)
                [segT segs i] none).1) (i + 1)
          omega
    · rw [if_neg hin] at hc
      simp at hc

/-- When `i < n`, the outer loop emits a first chunk starting at
segment `i`'s start time. -/
theorem chunkLoop_head (segs : List Seg) (p : ChunkParams) :
    ∀ fuel i, i < segs.length → segs.length ≤ fuel + i →
      ∃ c rest, chunkLoop segs p fuel i = c :: rest ∧
        c.start_time = segS segs i ∧
        c.end_time = (growWindow segs p i (segs.length - i) i (segE segs i)
          [segT segs i] none).2.1 := by
  intro fuel
  cases fuel with
  | zero => intro i h1 h2; omega
  | succ fuel =>
    intro i hin _
    rw [chunkLoop, if_pos hin]
    simp only []
    split
    · exact ⟨_, _, rfl, rfl, rfl⟩
    · exact ⟨_, _, rfl, rfl, rfl⟩

/-- Provided the filtered segments are contiguous and have nondecreasing
end times, consecutive chunks emitted by the outer loop overlap or touch
in time. -/
theorem chunkLoop_chain (segs : List Seg) (p : ChunkParams)
    (hcont : segContiguousB segs = true)
    (hmono : segEndsMonoB segs = true) :
    ∀ fuel i, segs.length ≤ fuel + i →
      List.Chain' (fun c1 c2 => c2.start_time ≤ c1.end_time)
        (chunkLoop segs p fuel i) := by
  intro fuel
  induction fuel with
  | zero => intro i _; simp [chunkLoop]
  | succ fuel ih =>
    intro i hfe
    rw [chunkLoop]
    by_cases hin : i < segs.length
    · rw [if_pos hin]
      simp only []
      have hspec := growWindow_spec segs p i (segs.length - i) i
        (segE segs i) [segT segs i] none (le_refl i) hin (by omega) rfl
        (by intro m h1 h2; omega) (by intro b hb; cases hb)
      set r := growWindow segs p i (segs.length - i) i (segE segs i)
        [segT segs i] none with hr
      split
      · simp
      · next hnotend =>
        set k := rewindOverlap segs i (r.2.1 - p.overlap_seconds) r.1
          with hk
        have hkle : k ≤ r.1 := rewindOverlap_le segs i _ r.1
        have hkge : i ≤ k := rewindOverlap_ge segs i _ r.1 hspec.1
        have hi2n : max k (i + 1) < segs.length := by
          have h2 : max k (i + 1) ≤ r.1 + 1 :=
            max_le (by omega) (by have := hspec.1; omega)
          omega
        have hi2f : segs.length ≤ fuel + max k (i + 1) := by
          have := Nat.le_max_right k (i + 1)
          omega
        obtain ⟨c2, rest, heq, hstart, _⟩ :=
          chunkLoop_head segs p fuel (max k (i + 1)) hi2n hi2f
        rw [heq]
        refine List.chain'_cons.mpr ⟨?_, heq ▸ ih _ hi2f⟩
        rw [hstart, hspec.2.2.1]
        by_cases hji : r.1 = i
        · have hkei : k = i := by omega
          have hmax : max k (i + 1) = i + 1 := by omega
          rw [hmax, hji]
          have step := adjPairsB_getD _ segs hcont i (by omega)
          simpa [segS, segE] using of_decide_eq_true step
        · have hilt : i < r.1 := lt_of_le_of_ne hspec.1 (Ne.symm hji)
          have hi2le : max k (i + 1) ≤ r.1 := Nat.max_le.mpr ⟨hkle, hilt⟩
          have hpos : 1 ≤ max k (i + 1) := by omega
          have step := adjPairsB_getD _ segs hcont (max k (i + 1) - 1)
            (by omega)
          have hcstep : segS segs (max k (i + 1)) ≤
              segE segs (max k (i + 1) - 1) := by
            have h1 : max k (i + 1) - 1 + 1 = max k (i + 1) := by omega
            have hd := of_decide_eq_true step
            rw [h1] at hd
            simpa [segS, segE] using hd
          exact le_trans hcstep
            (segE_mono segs hmono _ _ (by omega) hspec.2.1)
    · rw [if_neg hin]
      simp


/-! ### Claims C2 and C3 -/

/-- Concrete input refuting C2: two 50-second segments, each below the
60-second max window, merged into one 100-second chunk. -/
def c2Segs : List RawSeg :=
  [⟨some 0, some 50, pystr "a"⟩, ⟨some 50, some 100, pystr "b"⟩]

/-- Parameters for the C2 counterexample: large target, max 60 s. -/
def c2Params : ChunkParams := ⟨1000, 60, 0, 0, 8/10⟩

/-- C2, counterexample: with `max_window_seconds = 60` and two adjacent
50-second segments (target never reached), the chunker emits a single
100-second chunk although no single segment alone exceeds 60 seconds, so
"every chunk length ≤ max_window_seconds unless a single segment alone
exceeds it" is false. -/
theorem C2_max_window_counterexample :
    ((filterSegs c2Segs).all fun sg =>
      decide (sg.e - sg.s ≤ c2Params.max_window_seconds)) = true ∧
    ((segments_to_time_chunks c2Segs c2Params).any fun c =>
      decide (c2Params.max_window_seconds <
        c.end_time - c.start_time)) = true := by
  decide

/-- C2 (amended): every emitted chunk spans a range `[a, b]` of the
filtered segments, starting at segment `a`'s start and ending at segment
`b`'s end, and every strict prefix of that range (up to any segment
before the last) spans less than `max_window_seconds`; hence a chunk can
exceed `max_window_seconds` only through its final segment — in
particular a single-segment chunk may exceed it on its own. -/
theorem C2_chunk_prefix_below_max (segments : List RawSeg)
    (p : ChunkParams) (c : Chunk)
    (hc : c ∈ segments_to_time_chunks segments p) :
    ∃ a b, a ≤ b ∧ b < (filterSegs segments).length ∧
      c.start_time = segS (filterSegs segments) a ∧
      c.end_time = segE (filterSegs segments) b ∧
      ∀ m, a ≤ m → m < b →
        segE (filterSegs segments) m - segS (filterSegs segments) a <
          p.max_window_seconds := by
  rw [segments_to_time_chunks] at hc
  split at hc
  · simp at hc
  · obtain ⟨a, b, _, hab, hbn, hs, he, hp⟩ :=
      chunkLoop_mem (filterSegs segments) p (filterSegs segments).length
        0 c hc
    exact ⟨a, b, hab, hbn, hs, he, hp⟩

/-- Witness for the amended C2 at the counterexample input: the sole
emitted chunk spans segments 0..1, with its prefix below the max. -/
theorem C2_chunk_prefix_below_max_witness :
    (⟨0, 100, pystr "a b"⟩ : Chunk) ∈
      segments_to_time_chunks c2Segs c2Params ∧
    ∃ a b, a ≤ b ∧ b < (filterSegs c2Segs).length ∧
      (0 : ℚ) = segS (filterSegs c2Segs) a ∧
      (100 : ℚ) = segE (filterSegs c2Segs) b ∧
      ∀ m, a ≤ m → m < b →
        segE (filterSegs c2Segs) m - segS (filterSegs c2Segs) a <
          c2Params.max_window_seconds :=
  ⟨by decide,
    C2_chunk_prefix_below_max c2Segs c2Params ⟨0, 100, pystr "a b"⟩
      (by decide)⟩

/-- Concrete input refuting C3: two segments separated by a 40-second
silence gap, cut into two chunks by a small max window. -/
def c3Segs : List RawSeg :=
  [⟨some 0, some 10, pystr "a"⟩, ⟨some 50, some 60, pystr "b"⟩]

/-- Parameters for the C3 counterexample. -/
def c3Params : ChunkParams := ⟨100, 5, 0, 0, 8/10⟩

/-- C3, counterexample: with a 40-second silence gap between the two
input segments, the chunker emits chunks `[0,10]` and `[50,60]`, and the
second chunk starts after the first ends, so "each chunk after the first
has start_time ≤ the previous chunk's end_time" is false in general. -/
theorem C3_overlap_counterexample :
    ¬ List.Chain' (fun c1 c2 => c2.start_time ≤ c1.end_time)
      (segments_to_time_chunks c3Segs c3Params) := by
  have h : segments_to_time_chunks c3Segs c3Params =
      [⟨0, 10, pystr "a"⟩, ⟨50, 60, pystr "b"⟩] := by decide
  rw [h]
  intro hch
  have h2 := (List.chain'_cons.mp hch).1
  norm_num at h2

/-- C3 (amended): provided the filtered segments are contiguous (each
segment starts no later than its predecessor ends) and their end times
are nondecreasing, each chunk after the first starts no later than the
previous chunk ends (consecutive chunks overlap or touch in time). -/
theorem C3_chunks_touch_of_contiguous (segments : List RawSeg)
    (p : ChunkParams)
    (hcont : segContiguousB (filterSegs segments) = true)
    (hmono : segEndsMonoB (filterSegs segments) = true) :
    List.Chain' (fun c1 c2 => c2.start_time ≤ c1.end_time)
      (segments_to_time_chunks segments p) := by
  rw [segments_to_time_chunks]
  split
  · simp
  · exact chunkLoop_chain (filterSegs segments) p hcont hmono
      (filterSegs segments).length 0 (by omega)

/-- Concrete contiguous input exercising the amended C3. -/
def c3GoodSegs : List RawSeg :=
  [⟨some 0, some 10, pystr "a"⟩, ⟨some 8, some 20, pystr "b"⟩,
    ⟨some 18, some 30, pystr "c"⟩]

/-- Witness for the amended C3 at a contiguous input with nondecreasing
ends: its hypotheses hold and consecutive emitted chunks touch. -/
theorem C3_chunks_touch_of_contiguous_witness :
    (segContiguousB (filterSegs c3GoodSegs) = true ∧
      segEndsMonoB (filterSegs c3GoodSegs) = true) ∧
    List.Chain' (fun c1 c2 => c2.start_time ≤ c1.end_time)
      (segments_to_time_chunks c3GoodSegs c3Params) :=
  ⟨⟨by decide, by decide⟩,
    C3_chunks_touch_of_contiguous c3GoodSegs c3Params (by decide)
      (by decide)⟩


/-! ## Worker epoch check (`backend/app/worker.py`, `_ensure_same_run`) -/

/-- A row of the `jobs` table (the fields the worker reads). -/
structure JobRow where
  id : String
  video_id : String
  job_type : String
  status : Option String
  started_at : Option String
  created_at : String
  deriving Repr, DecidableEq

/-- Failures raised by the worker. -/
inductive WorkerErr where
  | jobCancelled : WorkerErr
  | runtimeErr : String → WorkerErr
  deriving Repr, DecidableEq

/-- `JobWorker._ensure_same_run`, applied to the row fetched by
`get_job(job_id)` (`none` when the row is missing) and to the claimed
`started_at` epoch token. -/
def ensure_same_run (job : Option JobRow) (started_at : String) :
    Except WorkerErr JobRow :=
  match job with
  | none => Except.error (WorkerErr.runtimeErr "job not found")
  | some j =>
    if (j.status.getD "") ≠ "running" then
      Except.error WorkerErr.jobCancelled
    else if (j.started_at.getD "") ≠ started_at then
      Except.error WorkerErr.jobCancelled
    else
      Except.ok j

/-- C5: for every existing job row, the epoch check raises `JobCancelled`
iff the row's status is not `'running'` or its `started_at` differs from
the claimed token, and returns the row exactly when both conditions
hold. -/
theorem C5_epoch_check_iff (j : JobRow) (claimed : String) :
    (ensure_same_run (some j) claimed =
        Except.error WorkerErr.jobCancelled ↔
      (j.status.getD "" ≠ "running" ∨ j.started_at.getD "" ≠ claimed)) ∧
    (ensure_same_run (some j) claimed = Except.ok j ↔
      (j.status.getD "" = "running" ∧ j.started_at.getD "" = claimed)) := by
  simp only [ensure_same_run]
  split_ifs with h1 h2 <;> simp_all

/-! ## Concurrency limiters (`backend/app/runtime.py`) -/

/-- The observable state of a `DynamicSemaphore` (`_max` is clamped to be
nonnegative by `__init__`/`set_max_value`, so it is a `Nat`). -/
structure SemState where
  maxv : Nat
  inUse : Nat
  deriving Repr, DecidableEq

/-- `DynamicSemaphore.acquire` with a timeout.  Interleaved threads are
modelled by `wakes`: the state observed after each `cond.wait` call;
exhausting the list models the deadline elapsing before another wake
delivers capacity. -/
def acquire : SemState → List SemState → Bool × SemState
  | s, wakes =>
    if s.maxv = 0 then (false, s)
    else if s.inUse < s.maxv then (true, ⟨s.maxv, s.inUse + 1⟩)
    else
      match wakes with
      | [] => (false, s)
      | s2 :: rest => acquire s2 rest

/-- `DynamicSemaphore.release`. -/
def release (s : SemState) : SemState :=
  if 0 < s.inUse then ⟨s.maxv, s.inUse - 1⟩ else s

/-- `limit_asr`: raise `ASR_CONCURRENCY_TIMEOUT` when the acquire fails,
otherwise run the body and release. -/
def limit_asr (s : SemState) (wakes : List SemState) :
    Except String SemState :=
  match acquire s wakes with
  | (false, _) => Except.error "ASR_CONCURRENCY_TIMEOUT"
  | (true, s2) => Except.ok (release s2)

/-- `limit_llm`. -/
def limit_llm (s : SemState) (wakes : List SemState) :
    Except String SemState :=
  match acquire s wakes with
  | (false, _) => Except.error "LLM_CONCURRENCY_TIMEOUT"
  | (true, s2) => Except.ok (release s2)

/-- `limit_heavy`. -/
def limit_heavy (s : SemState) (wakes : List SemState) :
    Except String SemState :=
  match acquire s wakes with
  | (false, _) => Except.error "HEAVY_CONCURRENCY_TIMEOUT"
  | (true, s2) => Except.ok (release s2)

theorem acquire_false_of_no_capacity :
    ∀ (wakes : List SemState) (s : SemState),
      (∀ t, (t = s ∨ t ∈ wakes) → ¬ t.inUse < t.maxv) →
      (acquire s wakes).1 = false := by
  intro wakes
  induction wakes with
  | nil =>
    intro s h
    rw [acquire]
    split_ifs with h1 h2
    · rfl
    · exact absurd h2 (h s (Or.inl rfl))
    · rfl
  | cons s2 rest ih =>
    intro s h
    rw [acquire]
    split_ifs with h1 h2
    · rfl
    · exact absurd h2 (h s (Or.inl rfl))
    · exact ih s2 (by
        intro t ht
        rcases ht with ht | ht
        · exact h t (Or.inr (ht ▸ List.mem_cons_self s2 rest))
        · exact h t (Or.inr (List.mem_cons_of_mem s2 ht)))

theorem acquire_true_spec :
    ∀ (wakes : List SemState) (s s2 : SemState),
      acquire s wakes = (true, s2) →
      ∃ t, (t = s ∨ t ∈ wakes) ∧ t.inUse < t.maxv ∧
        s2 = ⟨t.maxv, t.inUse + 1⟩ := by
  intro wakes
  induction wakes with
  | nil =>
    intro s s2 h
    rw [acquire] at h
    split_ifs at h with h1 h2
    · simp at h
    · exact ⟨s, Or.inl rfl, h2, by cases h; rfl⟩
    · simp at h
  | cons w rest ih =>
    intro s s2 h
    rw [acquire] at h
    split_ifs at h with h1 h2
    · simp at h
    · exact ⟨s, Or.inl rfl, h2, by cases h; rfl⟩
    · obtain ⟨t, ht, hcap, hs2⟩ := ih w s2 h
      refine ⟨t, Or.inr ?_, hcap, hs2⟩
      rcases ht with ht | ht
      · exact ht ▸ List.mem_cons_self w rest
      · exact List.mem_cons_of_mem w ht

/-- C9: with max 0 every acquire returns `false`; when no observed state
ever has spare capacity (the deadline elapses first) the acquire returns
`false` rather than raising; an acquire returns `true` only by
incrementing `in_use` in a state with `in_use < max`; and the three
limiter wrappers raise their typed failure exactly when the acquire
returns `false`. -/
theorem C9_semaphore_limiters :
    (∀ (s : SemState) (wakes : List SemState), s.maxv = 0 →
      (acquire s wakes).1 = false) ∧
    (∀ (s : SemState) (wakes : List SemState),
      (∀ t, (t = s ∨ t ∈ wakes) → ¬ t.inUse < t.maxv) →
      (acquire s wakes).1 = false) ∧
    (∀ (s s2 : SemState) (wakes : List SemState),
      acquire s wakes = (true, s2) →
      ∃ t, (t = s ∨ t ∈ wakes) ∧ t.inUse < t.maxv ∧
        s2 = ⟨t.maxv, t.inUse + 1⟩) ∧
    (∀ (s : SemState) (wakes : List SemState),
      (limit_asr s wakes = Except.error "ASR_CONCURRENCY_TIMEOUT" ↔
        (acquire s wakes).1 = false) ∧
      (limit_llm s wakes = Except.error "LLM_CONCURRENCY_TIMEOUT" ↔
        (acquire s wakes).1 = false) ∧
      (limit_heavy s wakes = Except.error "HEAVY_CONCURRENCY_TIMEOUT" ↔
        (acquire s wakes).1 = false)) := by
  refine ⟨?_, ?_, ?_, ?_⟩
  · intro s wakes h
    simp [acquire.eq_def, h]
  · exact fun s wakes h => acquire_false_of_no_capacity wakes s h
  · exact fun s s2 wakes h => acquire_true_spec wakes s s2 h
  · intro s wakes
    refine ⟨?_, ?_, ?_⟩ <;>
      · rcases hq : acquire s wakes with ⟨b, s2⟩
        cases b <;> simp [limit_asr, limit_llm, limit_heavy, hq]

/-- Witness for C9 at concrete states: a zero-capacity semaphore refuses,
a saturated semaphore times out, a free semaphore increments `in_use`,
and `limit_asr` raises exactly on the failed acquire. -/
theorem C9_semaphore_limiters_witness :
    (acquire ⟨0, 0⟩ []).1 = false ∧
    (acquire ⟨1, 1⟩ [⟨1, 1⟩]).1 = false ∧
    (∃ t, (t = (⟨2, 0⟩ : SemState) ∨ t ∈ ([] : List SemState)) ∧
      t.inUse < t.maxv ∧ (⟨2, 1⟩ : SemState) = ⟨t.maxv, t.inUse + 1⟩) ∧
    (limit_asr ⟨1, 1⟩ [] = Except.error "ASR_CONCURRENCY_TIMEOUT" ↔
      (acquire ⟨1, 1⟩ []).1 = false) :=
  ⟨C9_semaphore_limiters.1 ⟨0, 0⟩ [] rfl,
    C9_semaphore_limiters.2.1 ⟨1, 1⟩ [⟨1, 1⟩] (by
      intro t ht
      rcases ht with h | h
      · subst h; decide
      · rw [List.mem_singleton] at h; subst h; decide),
    C9_semaphore_limiters.2.2.1 ⟨2, 0⟩ ⟨2, 1⟩ [] (by decide),
    (C9_semaphore_limiters.2.2.2 ⟨1, 1⟩ []).1⟩


/-! ## Keyframe extraction (`backend/app/worker.py`, `_run_keyframes`) -/

/-- Stable insertion of `x` into a sorted list: `x` goes in front of the
first element it compares `le` to, so earlier elements win ties. -/
def stableInsert {α : Type} (le : α → α → Bool) (x : α) :
    List α → List α
  | [] => [x]
  | y :: ys => if le x y then x :: y :: ys else y :: stableInsert le x ys

/-- Stable insertion sort (the embedding of Python's stable `sorted`). -/
def stableSort {α : Type} (le : α → α → Bool) : List α → List α
  | [] => []
  | x :: xs => stableInsert le x (stableSort le xs)

/-- The `interval` branch of `_run_keyframes`:
`while t < duration and len(times) < max_frames`.  The remaining frame
budget is the structural fuel, exactly `max_frames - len(times)`. -/
def intervalTimes (intervalS duration : ℚ) :
    Nat → ℚ → List (ℚ × Option ℚ)
  | 0, _ => []
  | rem + 1, t =>
    if t < duration then
      (t, none) :: intervalTimes intervalS duration rem (t + intervalS)
    else []

/-- The `scene` branch's greedy pick over score-ranked candidates:
stop at `max_frames`, skip timestamps outside `[0, duration]`, and skip
candidates within `min_gap_seconds` of an already-picked timestamp. -/
def pickScene (maxFrames : Nat) (minGap duration : ℚ) :
    List (ℚ × ℚ) → List (ℚ × ℚ) → List (ℚ × ℚ)
  | [], picked => picked
  | (ts, sc) :: rest, picked =>
    if maxFrames ≤ picked.length then picked
    else if ts < 0 ∨ duration < ts then
      pickScene maxFrames minGap duration rest picked
    else if 0 < minGap ∧
        picked.any fun q => decide (|ts - q.1| < minGap) then
      pickScene maxFrames minGap duration rest picked
    else pickScene maxFrames minGap duration rest (picked ++ [(ts, sc)])

/-- The candidate timestamp list computed by `_run_keyframes` before the
empty-list fallback: the interval grid for mode `interval`, otherwise the
scene picks ranked by descending score and re-sorted by time. -/
def rawKeyframeTimes (mode : PyStr) (intervalS : ℚ)
    (sceneCands : List (ℚ × ℚ)) (maxFrames : Nat) (minGap duration : ℚ) :
    List (ℚ × Option ℚ) :=
  if mode = pystr "interval" then
    intervalTimes intervalS duration maxFrames 0
  else
    let ranked := stableSort (fun a b => decide (b.2 ≤ a.2)) sceneCands
    let picked := pickScene maxFrames minGap duration ranked []
    let sorted := stableSort (fun a b => decide (a.1 ≤ b.1)) picked
    sorted.map fun q => (q.1, some q.2)

/-- The timestamp list actually iterated by `_run_keyframes`:
`if not times: times = [(0.0, None)]`. -/
def keyframeTimes (mode : PyStr) (intervalS : ℚ)
    (sceneCands : List (ℚ × ℚ)) (maxFrames : Nat) (minGap duration : ℚ) :
    List (ℚ × Option ℚ) :=
  let times := rawKeyframeTimes mode intervalS sceneCands maxFrames
    minGap duration
  if times.isEmpty then [(0, none)] else times

/-- The `frame_count` written by the final
`update_video_keyframe_index(..., status="completed", frame_count=n)`:
`n = len(times)`. -/
def runKeyframesFrameCount (mode : PyStr) (intervalS : ℚ)
    (sceneCands : List (ℚ × ℚ)) (maxFrames : Nat) (minGap duration : ℚ) :
    Nat :=
  (keyframeTimes mode intervalS sceneCands maxFrames minGap duration).length

/-- C10: past the `duration > 0` check, an empty candidate list is
replaced by the single timestamp `0.0`, so a keyframes job that completes
finalizes its index with `frame_count ≥ 1`. -/
theorem C10_keyframes_at_least_one_frame (mode : PyStr) (intervalS : ℚ)
    (sceneCands : List (ℚ × ℚ)) (maxFrames : Nat) (minGap duration : ℚ)
    (_hdur : 0 < duration) :
    (rawKeyframeTimes mode intervalS sceneCands maxFrames minGap
        duration = [] →
      keyframeTimes mode intervalS sceneCands maxFrames minGap duration =
        [(0, none)]) ∧
    1 ≤ runKeyframesFrameCount mode intervalS sceneCands maxFrames minGap
      duration := by
  constructor
  · intro h
    rw [keyframeTimes]
    simp [h]
  · rw [runKeyframesFrameCount, keyframeTimes]
    split
    · simp
    · next hne =>
      rcases hraw : rawKeyframeTimes mode intervalS sceneCands maxFrames
          minGap duration with _ | ⟨a, rest⟩
      · rw [hraw] at hne; simp at hne
      · simp

/-- Witness for C10: a scene run whose detector returned no candidates
still schedules frame `0.0` and reports `frame_count = 1`. -/
theorem C10_keyframes_at_least_one_frame_witness :
    (0 : ℚ) < 30 ∧
    (rawKeyframeTimes (pystr "scene") 10 [] 200 2 30 = [] →
      keyframeTimes (pystr "scene") 10 [] 200 2 30 = [(0, none)]) ∧
    1 ≤ runKeyframesFrameCount (pystr "scene") 10 [] 200 2 30 :=
  ⟨by norm_num,
    C10_keyframes_at_least_one_frame (pystr "scene") 10 [] 200 2 30
      (by norm_num)⟩


/-! ## Job claiming (`backend/app/repo.py` and the worker loop) -/

/-- Lexicographic order on character lists (SQLite `ORDER BY` on the
`created_at` text column). -/
def pyStrLe : PyStr → PyStr → Bool
  | [], _ => true
  | _ :: _, [] => false
  | a :: as, b :: bs =>
    if a < b then true else if b < a then false else pyStrLe as bs

/-- `fetch_next_pending_job()` (no `job_type` filter):
`SELECT * FROM jobs WHERE status='pending' ORDER BY created_at LIMIT 1`. -/
def fetch_next_pending_job (db : List JobRow) : Option JobRow :=
  (stableSort (fun a b => pyStrLe a.created_at.data b.created_at.data)
    (db.filter fun r => decide (r.status = some "pending"))).head?

/-- `claim_pending_job(job_id)` (`repo.py`): the conditional
`UPDATE jobs SET status='running', started_at=datetime('now')
WHERE id=? AND status='pending'`, returning `bool(cur.rowcount)` and the
updated table. -/
def claim_pending_job (db : List JobRow) (job_id : String) (now : String) :
    Bool × List JobRow :=
  let hit : JobRow → Bool := fun r =>
    decide (r.id = job_id) && decide (r.status = some "pending")
  (db.any hit,
    db.map fun r =>
      if hit r then
        { r with status := some "running", started_at := some now }
      else r)

/-- A Python `TypeError` from a positional call with the wrong arity. -/
inductive PyCallErr where
  | typeError : PyCallErr
  deriving Repr, DecidableEq

/-- The number of positional parameters `repo.claim_pending_job` accepts
(`def claim_pending_job(job_id: str) -> bool`). -/
def claimPendingJobArity : Nat := 1

/-- A Python positional call to `repo.claim_pending_job`: passing any
number of arguments other than its one parameter raises `TypeError`. -/
def call_claim_pending_job (args : List String) (db : List JobRow)
    (now : String) : Except PyCallErr (Bool × List JobRow) :=
  if args.length = claimPendingJobArity then
    Except.ok (claim_pending_job db (args.getD 0 "") now)
  else Except.error PyCallErr.typeError

/-- The claim step of `JobWorker.run_forever` (`worker.py` line 121):
`claim_pending_job(job_id, job_type)` — a call with two positional
arguments. -/
def workerClaimStep (job : JobRow) (db : List JobRow) (now : String) :
    Except PyCallErr (Bool × List JobRow) :=
  call_claim_pending_job [job.id, job.job_type] db now

/-- A one-row jobs table holding a single pending transcribe job. -/
def c1Db : List JobRow :=
  [⟨"job-1", "video-1", "transcribe", some "pending", none,
    "2026-01-01 00:00:00"⟩]

/-- C1: evaluating the worker's claim step on the oldest pending job.
The worker calls `claim_pending_job(job_id, job_type)` with two
positional arguments, but `repo.claim_pending_job(job_id)` accepts one,
so the call raises `TypeError` — even though the one-argument repo
function itself would have claimed the job (conditional update
pending → running, setting `started_at`, one row affected). -/
theorem C1_claim_call_arity_mismatch :
    (∃ j, fetch_next_pending_job c1Db = some j ∧
      workerClaimStep j c1Db "2026-01-02 08:00:00" =
        Except.error PyCallErr.typeError) ∧
    claim_pending_job c1Db "job-1" "2026-01-02 08:00:00" =
      (true,
        [⟨"job-1", "video-1", "transcribe", some "running",
          some "2026-01-02 08:00:00", "2026-01-01 00:00:00"⟩]) := by
  exact ⟨⟨⟨"job-1", "video-1", "transcribe", some "pending", none,
    "2026-01-01 00:00:00"⟩, by decide, rfl⟩, by decide⟩


/-! ## Transcription with resume (`backend/app/worker.py`,
`_run_transcribe`) -/

/-- An ASR segment with window-relative times. -/
structure RelSeg where
  s : ℚ
  e : ℚ
  text : PyStr
  deriving Repr, DecidableEq

/-- A transcript-log segment with absolute times. -/
structure AbsSeg where
  s : ℚ
  e : ℚ
  text : PyStr
  language : Option String
  deriving Repr, DecidableEq

/-- The per-window output loop of `_run_transcribe`: shift each ASR
segment by the window `start`, drop it when its absolute end is at most
`resume_from`, strip its text, and attach the detected language. -/
def windowOut (start resumeFrom : ℚ) (lang : Option String) :
    List RelSeg → List AbsSeg
  | [] => []
  | seg :: rest =>
    if start + seg.e ≤ resumeFrom then windowOut start resumeFrom lang rest
    else
      ⟨start + seg.s, start + seg.e, pyStrip seg.text, lang⟩ ::
        windowOut start resumeFrom lang rest

/-- The `while start < duration` loop of `_run_transcribe`.  `asr` is the
ASR oracle: window start and duration to segments and detected language.
The structural `fuel` bounds the iteration count; the entry point passes
`⌈(duration - start)/segment_seconds⌉`, which
`transcribeWindows_fuel_step` shows is never exhausted when
`segment_seconds > 0`. -/
def transcribeWindows (asr : ℚ → ℚ → List RelSeg × Option String)
    (duration segS resumeFrom : ℚ) : Nat → ℚ → List AbsSeg
  | 0, _ => []
  | fuel + 1, start =>
    if start < duration then
      windowOut start resumeFrom
          (asr start (min segS (duration - start))).2
          (asr start (min segS (duration - start))).1 ++
        transcribeWindows asr duration segS resumeFrom fuel
          (start + min segS (duration - start))
    else []

/-- `_run_transcribe` after the transcript log scan: resume bookkeeping
(`resume_from = last_end`, first window at `max(0, last_end - overlap)`
when `last_end > 0`) followed by the window loop; returns the list of
segments appended to the transcript log. -/
def runTranscribe (asr : ℚ → ℚ → List RelSeg × Option String)
    (duration segS overlapS lastEnd : ℚ) : List AbsSeg :=
  let resumeFrom := lastEnd
  let start0 := if 0 < lastEnd then max 0 (lastEnd - overlapS) else 0
  transcribeWindows asr duration segS resumeFrom
    (Int.toNat ⌈(duration - start0) / segS⌉) start0

theorem windowOut_eq_filterMap (start resumeFrom : ℚ)
    (lang : Option String) :
    ∀ segs, windowOut start resumeFrom lang segs =
      segs.filterMap fun r =>
        if resumeFrom < start + r.e then
          some ⟨start + r.s, start + r.e, pyStrip r.text, lang⟩
        else none := by
  intro segs
  induction segs with
  | nil => rfl
  | cons r rest ih =>
    rw [windowOut, List.filterMap_cons]
    by_cases h : start + r.e ≤ resumeFrom
    · rw [if_pos h, if_neg (not_lt.mpr h), ih]
    · rw [if_neg h, if_pos (not_le.mp h), ih]

/-- With a positive window size, the fuel `⌈(duration - start)/segS⌉`
is never exhausted: one more unit of fuel changes nothing. -/
theorem transcribeWindows_fuel_step
    (asr : ℚ → ℚ → List RelSeg × Option String)
    (duration segS resumeFrom : ℚ) (hseg : 0 < segS) :
    ∀ fuel start, Int.toNat ⌈(duration - start) / segS⌉ ≤ fuel →
      transcribeWindows asr duration segS resumeFrom fuel start =
        transcribeWindows asr duration segS resumeFrom (fuel + 1)
          start := by
  intro fuel
  induction fuel with
  | zero =>
    intro start hf
    have hc : ⌈(duration - start) / segS⌉ ≤ 0 := by omega
    have hq : (duration - start) / segS ≤ 0 := by
      by_contra hpos
      rw [not_le] at hpos
      have := Int.one_le_ceil_iff.mpr hpos
      omega
    have hds : duration - start ≤ 0 := by
      by_contra hpos
      rw [not_le] at hpos
      exact absurd (div_pos hpos hseg) (not_lt.mpr hq)
    rw [transcribeWindows, transcribeWindows,
      if_neg (by intro hlt; linarith)]
  | succ fuel ih =>
    intro start hf
    rw [transcribeWindows]
    conv_rhs => rw [transcribeWindows]
    by_cases hlt : start < duration
    · rw [if_pos hlt, if_pos hlt]
      have hd : 0 < duration - start := by linarith
      rcases le_total segS (duration - start) with hc | hc
      · have hmin : min segS (duration - start) = segS := min_eq_left hc
        rw [hmin]
        have h1 : duration - (start + segS) = duration - start - segS := by
          ring
        have h2 : (duration - start - segS) / segS =
            (duration - start) / segS - 1 := by
          field_simp
        have h3 : ⌈(duration - (start + segS)) / segS⌉ =
            ⌈(duration - start) / segS⌉ - 1 := by
          rw [h1, h2, Int.ceil_sub_one]
        have h4 : (1 : ℤ) ≤ ⌈(duration - start) / segS⌉ :=
          Int.one_le_ceil_iff.mpr (div_pos hd hseg)
        rw [ih (start + segS) (by omega)]
      · have hmin : min segS (duration - start) = duration - start :=
          min_eq_right hc
        rw [hmin]
        have h1 : duration - (start + (duration - start)) = 0 := by ring
        have h3 : ⌈(duration - (start + (duration - start))) / segS⌉ =
            0 := by
          rw [h1, zero_div, Int.ceil_zero]
        rw [ih (start + (duration - start)) (by omega)]
    · rw [if_neg hlt, if_neg hlt]

/-- C4: with an existing transcript log whose `last_end > 0`, the
pipeline starts its first window at `max(0, last_end - overlap_seconds)`
with `resume_from = last_end`, and each window's appended segments are
exactly the ASR segments shifted by the window start and kept iff their
absolute end exceeds `resume_from`. -/
theorem C4_transcribe_resume
    (asr : ℚ → ℚ → List RelSeg × Option String)
    (duration segS overlapS lastEnd : ℚ) (hle : 0 < lastEnd) :
    runTranscribe asr duration segS overlapS lastEnd =
      transcribeWindows asr duration segS lastEnd
        (Int.toNat ⌈(duration - max 0 (lastEnd - overlapS)) / segS⌉)
        (max 0 (lastEnd - overlapS)) ∧
    ∀ fuel start, start < duration →
      transcribeWindows asr duration segS lastEnd (fuel + 1) start =
        ((asr start (min segS (duration - start))).1.filterMap fun r =>
          if lastEnd < start + r.e then
            some ⟨start + r.s, start + r.e, pyStrip r.text,
              (asr start (min segS (duration - start))).2⟩
          else none) ++
        transcribeWindows asr duration segS lastEnd fuel
          (start + min segS (duration - start)) := by
  constructor
  · rw [runTranscribe]
    rw [if_pos hle]
  · intro fuel start hlt
    rw [transcribeWindows, if_pos hlt, windowOut_eq_filterMap]

/-- A concrete ASR oracle for the C4 witness. -/
def c4Asr : ℚ → ℚ → List RelSeg × Option String :=
  fun _ _ => ([⟨0, 2, pystr " hi "⟩], some "en")

/-- Witness for C4 at `duration = 10`, `segment_seconds = 5`,
`overlap = 2`, `last_end = 3`. -/
theorem C4_transcribe_resume_witness :
    runTranscribe c4Asr 10 5 2 3 =
      transcribeWindows c4Asr 10 5 3
        (Int.toNat ⌈((10 : ℚ) - max 0 (3 - 2)) / 5⌉) (max 0 (3 - 2)) ∧
    ∀ fuel start, start < (10 : ℚ) →
      transcribeWindows c4Asr 10 5 3 (fuel + 1) start =
        ((c4Asr start (min 5 (10 - start))).1.filterMap fun r =>
          if (3 : ℚ) < start + r.e then
            some ⟨start + r.s, start + r.e, pyStrip r.text,
              (c4Asr start (min 5 (10 - start))).2⟩
          else none) ++
        transcribeWindows c4Asr 10 5 3 fuel (start + min 5 (10 - start)) :=
  C4_transcribe_resume c4Asr 10 5 2 3 (by norm_num)


/-! ## Keyframes endpoint (`backend/app/main.py`, `create_keyframes_job`) -/

/-- A keyframes parameter dictionary (request params or the stored
`params_json` of a keyframe index row), with optional keys. -/
structure KfParams where
  mode : Option PyStr
  interval_seconds : Option ℚ
  scene_threshold : Option ℚ
  min_gap_seconds : Option ℚ
  max_frames : Option ℤ
  target_width : Option ℤ
  from_scratch : Bool
  deriving Repr, DecidableEq

/-- The normalized projection produced by `_normalize_keyframes_params`:
only the keys relevant to the mode survive, and only when present.
Missing keys are `none`. -/
structure KfNorm where
  mode : PyStr
  interval_seconds : Option ℚ
  scene_threshold : Option ℚ
  min_gap_seconds : Option ℚ
  max_frames : Option ℤ
  target_width : Option ℤ
  deriving Repr, DecidableEq

/-- `str(obj.get("mode") or "interval").strip() or "interval"`. -/
def normMode (v : Option PyStr) : PyStr :=
  let m := pyStrip (v.getD (pystr "interval"))
  if m.isEmpty then pystr "interval" else m

/-- `_normalize_keyframes_params` (`main.py`): keep `mode`; for mode
`scene` keep `scene_threshold` and `min_gap_seconds` when present; for
any other mode keep `interval_seconds` when present; always keep
`max_frames` and `target_width` when present. -/
def normalize_keyframes_params (obj : KfParams) : KfNorm :=
  let mode := normMode obj.mode
  if mode = pystr "scene" then
    ⟨mode, none, obj.scene_threshold, obj.min_gap_seconds,
      obj.max_frames, obj.target_width⟩
  else
    ⟨mode, obj.interval_seconds, none, none,
      obj.max_frames, obj.target_width⟩

/-- The keyframe index row, as far as this endpoint reads it. -/
structure KfIndexRow where
  status : Option String
  params : KfParams
  deriving Repr, DecidableEq

/-- The responses `create_keyframes_job` can produce. -/
inductive KfResponse where
  | videoNotFound404 : KfResponse
  | inProgress202 : KfResponse
  | alreadyCompleted200 : KfResponse
  | started202 : KfResponse
  deriving Repr, DecidableEq

/-- `create_keyframes_job` (`main.py`): 404 when the video is missing,
202 `KEYFRAMES_IN_PROGRESS` when an active keyframes job exists, 200
`KEYFRAMES_ALREADY_COMPLETED` when a completed index row's stored params
normalize equal to the request params and `from_scratch` is false,
otherwise enqueue a job and answer 202 `KEYFRAMES_STARTED`.  The request
params dictionary is the request's present fields with
`mode = str(req.mode or "interval").strip() or "interval"` applied on
the worker side; here the raw request fields are carried in `req`. -/
def create_keyframes_job (videoExists : Bool) (activeJob : Bool)
    (idx : Option KfIndexRow) (req : KfParams) : KfResponse :=
  if !videoExists then KfResponse.videoNotFound404
  else if activeJob then KfResponse.inProgress202
  else
    match idx with
    | some row =>
      if row.status.getD "" = "completed" ∧ req.from_scratch = false ∧
          normalize_keyframes_params row.params =
            normalize_keyframes_params req then
        KfResponse.alreadyCompleted200
      else KfResponse.started202
    | none => KfResponse.started202

/-- C6: on an existing video with no active keyframes job, a completed
index row and `from_scratch = false`, the handler answers
`KEYFRAMES_ALREADY_COMPLETED` iff the normalized projections of the
stored and request params are deep-equal (mode plus
`scene_threshold`/`min_gap_seconds` for `scene`, `interval_seconds`
otherwise, plus `max_frames`/`target_width`, each only when present);
otherwise it answers `KEYFRAMES_STARTED`. -/
theorem C6_keyframes_normalized_dedup (row : KfIndexRow) (req : KfParams)
    (hstatus : row.status.getD "" = "completed")
    (hfs : req.from_scratch = false) :
    (create_keyframes_job true false (some row) req =
        KfResponse.alreadyCompleted200 ↔
      normalize_keyframes_params row.params =
        normalize_keyframes_params req) ∧
    (normalize_keyframes_params row.params ≠
        normalize_keyframes_params req →
      create_keyframes_job true false (some row) req =
        KfResponse.started202) := by
  constructor
  · rw [create_keyframes_job]
    simp only [Bool.not_true, Bool.false_eq_true, if_false]
    split_ifs with h
    · simp [h.2.2]
    · simp only [hstatus, hfs, true_and, not_and] at h
      constructor
      · intro hc; cases hc
      · intro he; exact absurd he (by simpa using h)
  · intro hne
    rw [create_keyframes_job]
    simp only [Bool.not_true, Bool.false_eq_true, if_false]
    rw [if_neg]
    intro h
    exact hne h.2.2

/-- Stored/request params for the C6 witness: same scene projection even
though the stored row carries a stale `interval_seconds` (projected
away), versus a request differing in `scene_threshold`. -/
def c6Stored : KfParams :=
  ⟨some (pystr "scene"), some 10, some (3/10), some 2, some 200,
    some 640, false⟩

/-- The C6 witness request: identical scene projection. -/
def c6Req : KfParams :=
  ⟨some (pystr "scene"), none, some (3/10), some 2, some 200,
    some 640, false⟩

/-- Witness for C6: the handler answers 200 exactly because the two
projections agree. -/
theorem C6_keyframes_normalized_dedup_witness :
    ((⟨some "completed", c6Stored⟩ : KfIndexRow).status.getD "" =
        "completed" ∧ c6Req.from_scratch = false) ∧
    (create_keyframes_job true false (some ⟨some "completed", c6Stored⟩)
        c6Req = KfResponse.alreadyCompleted200 ↔
      normalize_keyframes_params c6Stored =
        normalize_keyframes_params c6Req) ∧
    (normalize_keyframes_params c6Stored ≠
        normalize_keyframes_params c6Req →
      create_keyframes_job true false (some ⟨some "completed", c6Stored⟩)
        c6Req = KfResponse.started202) :=
  ⟨⟨by decide, by decide⟩,
    C6_keyframes_normalized_dedup ⟨some "completed", c6Stored⟩ c6Req
      (by decide) (by decide)⟩


/-! ## Vector-store retrieval with legacy fallback
(`backend/app/vector_store.py` `query_vectors`; `backend/app/main.py`
`search_api` and `chat_api`, which share this retrieval code) -/

/-- The parameters of one vector query: query embedding, `n_results`,
and the `where {video_id}` filter. -/
structure QueryArgs where
  query_embedding : List ℚ
  top_k : Nat
  whereVideoId : String
  deriving Repr, DecidableEq

/-- What `col.query` returns (the fields the endpoints read), plus the
`_collection_missing` marker inserted by `query_vectors`. -/
structure VecQueryResult where
  ids : List String
  documents : List PyStr
  distances : List ℚ
  collectionMissing : Bool
  deriving Repr, DecidableEq

/-- The missing-collection marker result: empty rows and
`_collection_missing = true`. -/
def emptyMissingResult : VecQueryResult := ⟨[], [], [], true⟩

/-- The outcome of looking a collection up in the Chroma client:
absent (`CHROMADB_COLLECTION_NOT_FOUND`), hard failure (client or
collection error), or present with a query oracle that may itself
fail. -/
inductive ColLookup where
  | missing : ColLookup
  | failed : ColLookup
  | found : (QueryArgs → Except Unit VecQueryResult) → ColLookup

/-- A vector store: collection name to lookup outcome. -/
def VStore : Type := String → ColLookup

/-- The legacy collection name (`vector_store.py`). -/
def LEGACY_COLLECTION_NAME : String := "video_chunks"

/-- `query_vectors` (`vector_store.py`): with `create_if_missing=False` a
missing collection yields the `_collection_missing` marker result rather
than an error; with `create_if_missing=True` the collection is created
empty; hard failures raise `VectorStoreUnavailable`. -/
def query_vectors (store : VStore) (name : String) (args : QueryArgs)
    (createIfMissing : Bool) : Except String VecQueryResult :=
  match store name with
  | ColLookup.failed => Except.error "CHROMADB_COLLECTION_FAILED"
  | ColLookup.missing =>
    if createIfMissing then Except.ok ⟨[], [], [], false⟩
    else Except.ok emptyMissingResult
  | ColLookup.found q =>
    match q args with
    | Except.error _ => Except.error "CHROMADB_QUERY_FAILED"
    | Except.ok r => Except.ok r

/-- The retrieval step shared by `search_api` and `chat_api`: query the
versioned collection with `create_if_missing=False`; on
`_collection_missing`, retry the legacy collection with identical
parameters; translate `VectorStoreUnavailable` to
`500 E_VECTOR_STORE_UNAVAILABLE`. -/
def retrieveWithFallback (store : VStore) (versioned : String)
    (args : QueryArgs) : Except String VecQueryResult :=
  match query_vectors store versioned args false with
  | Except.error _ => Except.error "E_VECTOR_STORE_UNAVAILABLE"
  | Except.ok res =>
    if res.collectionMissing then
      match query_vectors store LEGACY_COLLECTION_NAME args false with
      | Except.error _ => Except.error "E_VECTOR_STORE_UNAVAILABLE"
      | Except.ok res2 => Except.ok res2
    else Except.ok res

/-- C7: a missing collection is a non-error signal (empty marker result);
whenever the versioned query reports `_collection_missing`, the path
issues a second query against `video_chunks` with the identical
parameters (`create_if_missing=False`) and returns its outcome; hard
vector-store unavailability becomes `E_VECTOR_STORE_UNAVAILABLE`. -/
theorem C7_legacy_collection_fallback :
    (∀ (store : VStore) (name : String) (args : QueryArgs),
      store name = ColLookup.missing →
      query_vectors store name args false =
        Except.ok emptyMissingResult) ∧
    (∀ (store : VStore) (versioned : String) (args : QueryArgs)
      (res : VecQueryResult),
      query_vectors store versioned args false = Except.ok res →
      res.collectionMissing = true →
      retrieveWithFallback store versioned args =
        match query_vectors store LEGACY_COLLECTION_NAME args false with
        | Except.error _ => Except.error "E_VECTOR_STORE_UNAVAILABLE"
        | Except.ok res2 => Except.ok res2) ∧
    (∀ (store : VStore) (versioned : String) (args : QueryArgs),
      store versioned = ColLookup.failed →
      retrieveWithFallback store versioned args =
        Except.error "E_VECTOR_STORE_UNAVAILABLE") := by
  refine ⟨?_, ?_, ?_⟩
  · intro store name args h
    rw [query_vectors, h]
    rfl
  · intro store versioned args res hq hmiss
    rw [retrieveWithFallback, hq]
    simp [hmiss]
  · intro store versioned args h
    rw [retrieveWithFallback, query_vectors, h]

/-- The versioned collection name of the C7 witness store. -/
def c7Versioned : String := "video_chunks__hash__d256"

/-- A witness store: the versioned collection is absent, the legacy
collection answers queries. -/
def c7Store : VStore := fun name =>
  if name = LEGACY_COLLECTION_NAME then
    ColLookup.found fun _ =>
      Except.ok ⟨["video-1:1"], [pystr "hello"], [1/2], false⟩
  else ColLookup.missing

/-- A store whose client is hard-down. -/
def c7DownStore : VStore := fun _ => ColLookup.failed

/-- The query arguments of the C7 witness. -/
def c7Args : QueryArgs := ⟨[1, 0], 5, "video-1"⟩

/-- Witness for C7: the missing versioned collection yields the marker
result, the path falls through to the legacy collection's answer, and a
hard-down store maps to `E_VECTOR_STORE_UNAVAILABLE`. -/
theorem C7_legacy_collection_fallback_witness :
    query_vectors c7Store c7Versioned c7Args false =
      Except.ok emptyMissingResult ∧
    retrieveWithFallback c7Store c7Versioned c7Args =
      (match query_vectors c7Store LEGACY_COLLECTION_NAME c7Args false
        with
      | Except.error _ => Except.error "E_VECTOR_STORE_UNAVAILABLE"
      | Except.ok res2 => Except.ok res2) ∧
    retrieveWithFallback c7DownStore c7Versioned c7Args =
      Except.error "E_VECTOR_STORE_UNAVAILABLE" :=
  ⟨C7_legacy_collection_fallback.1 c7Store c7Versioned c7Args rfl,
    C7_legacy_collection_fallback.2.1 c7Store c7Versioned c7Args
      emptyMissingResult rfl rfl,
    C7_legacy_collection_fallback.2.2 c7DownStore c7Versioned c7Args
      rfl⟩


/-! ## JPEG dimension probe (`backend/app/ffmpeg_util.py`,
`get_jpg_dimensions`) -/

/-- The SOF marker set checked by the probe:
`C0..C3, C5..C7, C9..CB, CD..CF`. -/
def isSOFMarker (m : Nat) : Bool :=
  [0xC0, 0xC1, 0xC2, 0xC3, 0xC5, 0xC6, 0xC7, 0xC9, 0xCA, 0xCB,
    0xCD, 0xCE, 0xCF].contains m

/-- The inner `while i < n and data[i] == 0xFF: i += 1` fill-byte skip.
`fuel` is the remaining length `n - i`, which by construction cannot be
exhausted before the loop guard fails. -/
def skipFF (data : List Nat) : Nat → Nat → Nat
  | 0, i => i
  | fuel + 1, i =>
    if i < data.length ∧ data.getD i 0 = 0xFF then skipFF data fuel (i + 1)
    else i

/-- The marker scan loop of `get_jpg_dimensions`: walk the marker
segments, skipping each by its 16-bit length, stop at SOS (`FFDA`), and
return `(width, height)` from the first SOF marker segment, reading
`height(16)` then `width(16)`.  Every iteration advances `i` by at least
one, so the entry fuel `data.length` is never exhausted. -/
def scanMarkers (data : List Nat) : Nat → Nat → Except String (Nat × Nat)
  | 0, _ => Except.error "JPG_DIM_NOT_FOUND"
  | fuel + 1, i =>
    let n := data.length
    if ¬ (i + 4 ≤ n) then Except.error "JPG_DIM_NOT_FOUND"
    else if data.getD i 0 ≠ 0xFF then scanMarkers data fuel (i + 1)
    else
      let i1 := skipFF data (n - i) i
      if n ≤ i1 then Except.error "JPG_DIM_NOT_FOUND"
      else
        let marker := data.getD i1 0
        let i2 := i1 + 1
        if marker = 0xD8 ∨ marker = 0xD9 then scanMarkers data fuel i2
        else if marker = 0xDA then Except.error "JPG_DIM_NOT_FOUND"
        else if ¬ (i2 + 2 ≤ n) then Except.error "JPG_DIM_NOT_FOUND"
        else
          let segLen := data.getD i2 0 * 256 + data.getD (i2 + 1) 0
          let i3 := i2 + 2
          if segLen < 2 ∨ ¬ (i3 + (segLen - 2) ≤ n) then
            Except.error "JPG_DIM_NOT_FOUND"
          else if isSOFMarker marker then
            if segLen < 7 then Except.error "JPG_DIM_NOT_FOUND"
            else
              let h := data.getD (i3 + 1) 0 * 256 + data.getD (i3 + 2) 0
              let w := data.getD (i3 + 3) 0 * 256 + data.getD (i3 + 4) 0
              if w = 0 ∨ h = 0 then Except.error "INVALID_JPG_DIM"
              else Except.ok (w, h)
          else scanMarkers data fuel (i3 + (segLen - 2))

/-- `get_jpg_dimensions` (`ffmpeg_util.py`) on the file's bytes: require
the SOI signature `FFD8`, then scan the markers from offset 2. -/
def get_jpg_dimensions (data : List Nat) : Except String (Nat × Nat) :=
  if data.length < 4 ∨ data.take 2 ≠ [0xFF, 0xD8] then
    Except.error "INVALID_JPG"
  else scanMarkers data data.length 2

/-- A JPEG marker segment (marker byte and payload, excluding the two
length bytes). -/
structure JpgSegment where
  marker : Nat
  payload : List Nat
  deriving Repr, DecidableEq

/-- Serialize one marker segment: `FF`, the marker, the 16-bit big-endian
segment length (`payload + 2`), then the payload. -/
def serializeSegment (s : JpgSegment) : List Nat :=
  0xFF :: s.marker :: (s.payload.length + 2) / 256 ::
    (s.payload.length + 2) % 256 :: s.payload

/-- Serialize a header segment list. -/
def serializeSegments (l : List JpgSegment) : List Nat :=
  (l.map serializeSegment).flatten

/-- A whole JPEG byte stream: SOI, the header segments, then SOS
(`FFDA`) and the entropy-coded scan data. -/
def jpgBytes (segs : List JpgSegment) (scanData : List Nat) : List Nat :=
  0xFF :: 0xD8 :: (serializeSegments segs ++ (0xFF :: 0xDA :: scanData))

/-- A well-formed header segment: the marker is a single byte that is
not a fill byte (`FF`), not `SOI`/`EOI`/`SOS`, and not a standalone
marker (`TEM 01`, `RST0..7 D0..D7`, which carry no length field); the
payload fits the 16-bit length; payload bytes are bytes. -/
def wfSegmentB (s : JpgSegment) : Bool :=
  decide (s.marker < 256) && !(decide (s.marker = 0xFF)) &&
    !(decide (s.marker = 0xD8)) && !(decide (s.marker = 0xD9)) &&
    !(decide (s.marker = 0xDA)) && !(decide (s.marker = 0x01)) &&
    !(decide (0xD0 ≤ s.marker ∧ s.marker ≤ 0xD7)) &&
    decide (s.payload.length + 2 < 65536) &&
    s.payload.all fun b => decide (b < 256)

/-- The height stored in an SOF segment's payload:
`height(16)` at payload offsets 1–2. -/
def sofHeight (s : JpgSegment) : Nat :=
  s.payload.getD 1 0 * 256 + s.payload.getD 2 0

/-- The width stored in an SOF segment's payload:
`width(16)` at payload offsets 3–4. -/
def sofWidth (s : JpgSegment) : Nat :=
  s.payload.getD 3 0 * 256 + s.payload.getD 4 0

theorem getD_append_off {α : Type} (xs ys : List α) (k : Nat) (d : α) :
    (xs ++ ys).getD (xs.length + k) d = ys.getD k d := by
  induction xs with
  | nil => simp
  | cons a t ih =>
    simp only [List.cons_append, List.length_cons]
    rw [show t.length + 1 + k = t.length + k + 1 by omega]
    rw [List.getD_cons_succ]
    exact ih

theorem skipFF_stop (data : List Nat) (i : Nat)
    (h0 : data.getD i 0 = 0xFF) (h1 : data.getD (i + 1) 0 ≠ 0xFF)
    (hin : i + 1 < data.length) :
    ∀ fuel, 2 ≤ fuel → skipFF data fuel i = i + 1 := by
  intro fuel hf
  obtain ⟨f, rfl⟩ : ∃ f, fuel = f + 2 := ⟨fuel - 2, by omega⟩
  rw [skipFF, if_pos ⟨by omega, h0⟩, skipFF, if_neg]
  intro hc
  exact h1 hc.2


theorem wfSegmentB_props (s : JpgSegment) (hwf : wfSegmentB s = true) :
    s.marker < 256 ∧ s.marker ≠ 0xFF ∧ s.marker ≠ 0xD8 ∧
    s.marker ≠ 0xD9 ∧ s.marker ≠ 0xDA ∧ s.payload.length + 2 < 65536 := by
  simp only [wfSegmentB, Bool.and_eq_true, Bool.not_eq_true',
    decide_eq_true_eq, decide_eq_false_iff_not] at hwf
  exact ⟨hwf.1.1.1.1.1.1.1.1, hwf.1.1.1.1.1.1.1.2, hwf.1.1.1.1.1.1.2,
    hwf.1.1.1.1.1.2, hwf.1.1.1.1.2, hwf.1.2⟩

theorem scanMarkers_step_nonSOF (pref rest : List Nat) (s : JpgSegment)
    (fuel : Nat) (hwf : wfSegmentB s = true)
    (hnsof : isSOFMarker s.marker = false) :
    scanMarkers (pref ++ (serializeSegment s ++ rest)) (fuel + 1)
        pref.length =
      scanMarkers (pref ++ (serializeSegment s ++ rest)) fuel
        (pref.length + (4 + s.payload.length)) := by
  obtain ⟨hm256, hmFF, hmD8, hmD9, hmDA, hfit⟩ := wfSegmentB_props s hwf
  set data := pref ++ (serializeSegment s ++ rest) with hdata
  have hlen : data.length =
      pref.length + (4 + (s.payload.length + rest.length)) := by
    rw [hdata]
    simp [serializeSegment]
    omega
  have hread : ∀ k, data.getD (pref.length + k) 0 =
      (serializeSegment s ++ rest).getD k 0 :=
    fun k => getD_append_off pref _ k 0
  have h0 : data.getD pref.length 0 = 0xFF := by
    have := hread 0
    simpa using this
  have hm : data.getD (pref.length + 1) 0 = s.marker := hread 1
  have hhi : data.getD (pref.length + 1 + 1) 0 =
      (s.payload.length + 2) / 256 := by
    rw [show pref.length + 1 + 1 = pref.length + 2 by omega]
    exact hread 2
  have hlo : data.getD (pref.length + 1 + 1 + 1) 0 =
      (s.payload.length + 2) % 256 := by
    rw [show pref.length + 1 + 1 + 1 = pref.length + 3 by omega]
    exact hread 3
  have hskip : skipFF data (data.length - pref.length) pref.length =
      pref.length + 1 := by
    refine skipFF_stop data pref.length h0 (by rw [hm]; exact hmFF)
      (by omega) _ (by omega)
  rw [scanMarkers]
  rw [if_neg (not_not_intro (by omega : pref.length + 4 ≤ data.length))]
  rw [if_neg (by intro hc; exact hc h0)]
  rw [hskip]
  simp only []
  rw [hm, hhi, hlo]
  rw [if_neg (by omega : ¬ data.length ≤ pref.length + 1)]
  rw [if_neg (by
    intro hc
    rcases hc with hc | hc
    · exact hmD8 hc
    · exact hmD9 hc)]
  rw [if_neg hmDA]
  rw [if_neg (not_not_intro (by omega :
    pref.length + 1 + 1 + 2 ≤ data.length))]
  rw [show (s.payload.length + 2) / 256 * 256 +
      (s.payload.length + 2) % 256 = s.payload.length + 2 by omega]
  rw [if_neg (by
    push_neg
    exact ⟨by omega, by omega⟩)]
  rw [if_neg (by rw [hnsof]; exact Bool.false_ne_true)]
  rw [show pref.length + 1 + 1 + 2 + (s.payload.length + 2 - 2) =
    pref.length + (4 + s.payload.length) by omega]


theorem scanMarkers_step_SOF (pref rest : List Nat) (s : JpgSegment)
    (fuel : Nat) (hwf : wfSegmentB s = true)
    (hsof : isSOFMarker s.marker = true)
    (hplen : 5 ≤ s.payload.length)
    (hw : sofWidth s ≠ 0) (hh : sofHeight s ≠ 0) :
    scanMarkers (pref ++ (serializeSegment s ++ rest)) (fuel + 1)
        pref.length =
      Except.ok (sofWidth s, sofHeight s) := by
  obtain ⟨hm256, hmFF, hmD8, hmD9, hmDA, hfit⟩ := wfSegmentB_props s hwf
  set data := pref ++ (serializeSegment s ++ rest) with hdata
  have hlen : data.length =
      pref.length + (4 + (s.payload.length + rest.length)) := by
    rw [hdata]
    simp [serializeSegment]
    omega
  have hread : ∀ k, data.getD (pref.length + k) 0 =
      (serializeSegment s ++ rest).getD k 0 :=
    fun k => getD_append_off pref _ k 0
  have h0 : data.getD pref.length 0 = 0xFF := by
    have := hread 0
    simpa using this
  have hm : data.getD (pref.length + 1) 0 = s.marker := hread 1
  have hhi : data.getD (pref.length + 1 + 1) 0 =
      (s.payload.length + 2) / 256 := by
    rw [show pref.length + 1 + 1 = pref.length + 2 by omega]
    exact hread 2
  have hlo : data.getD (pref.length + 1 + 1 + 1) 0 =
      (s.payload.length + 2) % 256 := by
    rw [show pref.length + 1 + 1 + 1 = pref.length + 3 by omega]
    exact hread 3
  have hpl : ∀ k, k < s.payload.length →
      data.getD (pref.length + (4 + k)) 0 = s.payload.getD k 0 := by
    intro k hk
    rw [hread (4 + k)]
    have hstep : (serializeSegment s ++ rest).getD (4 + k) 0 =
        (s.payload ++ rest).getD k 0 := by
      rw [show 4 + k = k + 1 + 1 + 1 + 1 by omega]
      simp only [serializeSegment, List.cons_append, List.getD_cons_succ]
    rw [hstep]
    exact List.getD_append _ _ _ _ hk
  have hp1 : data.getD (pref.length + 1 + 1 + 2 + 1) 0 =
      s.payload.getD 1 0 := by
    rw [show pref.length + 1 + 1 + 2 + 1 = pref.length + (4 + 1) by omega]
    exact hpl 1 (by omega)
  have hp2 : data.getD (pref.length + 1 + 1 + 2 + 2) 0 =
      s.payload.getD 2 0 := by
    rw [show pref.length + 1 + 1 + 2 + 2 = pref.length + (4 + 2) by omega]
    exact hpl 2 (by omega)
  have hp3 : data.getD (pref.length + 1 + 1 + 2 + 3) 0 =
      s.payload.getD 3 0 := by
    rw [show pref.length + 1 + 1 + 2 + 3 = pref.length + (4 + 3) by omega]
    exact hpl 3 (by omega)
  have hp4 : data.getD (pref.length + 1 + 1 + 2 + 4) 0 =
      s.payload.getD 4 0 := by
    rw [show pref.length + 1 + 1 + 2 + 4 = pref.length + (4 + 4) by omega]
    exact hpl 4 (by omega)
  have hskip : skipFF data (data.length - pref.length) pref.length =
      pref.length + 1 := by
    refine skipFF_stop data pref.length h0 (by rw [hm]; exact hmFF)
      (by omega) _ (by omega)
  rw [scanMarkers]
  rw [if_neg (not_not_intro (by omega : pref.length + 4 ≤ data.length))]
  rw [if_neg (by intro hc; exact hc h0)]
  rw [hskip]
  simp only []
  rw [hm, hhi, hlo]
  rw [if_neg (by omega : ¬ data.length ≤ pref.length + 1)]
  rw [if_neg (by
    intro hc
    rcases hc with hc | hc
    · exact hmD8 hc
    · exact hmD9 hc)]
  rw [if_neg hmDA]
  rw [if_neg (not_not_intro (by omega :
    pref.length + 1 + 1 + 2 ≤ data.length))]
  rw [show (s.payload.length + 2) / 256 * 256 +
      (s.payload.length + 2) % 256 = s.payload.length + 2 by omega]
  rw [if_neg (by
    push_neg
    exact ⟨by omega, by omega⟩)]
  rw [if_pos hsof]
  rw [if_neg (by omega : ¬ s.payload.length + 2 < 7)]
  rw [hp1, hp2, hp3, hp4]
  rw [if_neg (by
    intro hc
    rcases hc with hc | hc
    · exact hw hc
    · exact hh hc)]
  rfl


theorem serializeSegments_cons (s : JpgSegment) (t : List JpgSegment) :
    serializeSegments (s :: t) =
      serializeSegment s ++ serializeSegments t := rfl

theorem serializeSegments_length_ge (l : List JpgSegment) :
    l.length ≤ (serializeSegments l).length := by
  induction l with
  | nil => simp [serializeSegments]
  | cons s t ih =>
    rw [serializeSegments_cons]
    simp only [List.length_append, List.length_cons, serializeSegment,
      serializeSegments] at ih ⊢
    omega

theorem scanMarkers_through (segs : List JpgSegment) :
    ∀ (pref rest : List Nat) (fuel : Nat),
      (∀ s ∈ segs, wfSegmentB s = true ∧ isSOFMarker s.marker = false) →
      scanMarkers (pref ++ (serializeSegments segs ++ rest))
          (fuel + segs.length) pref.length =
        scanMarkers (pref ++ (serializeSegments segs ++ rest)) fuel
          (pref.length + (serializeSegments segs).length) := by
  induction segs with
  | nil =>
    intro pref rest fuel h
    simp [serializeSegments]
  | cons s t ih =>
    intro pref rest fuel h
    have hs := h s (List.mem_cons_self s t)
    have hdata : pref ++ (serializeSegments (s :: t) ++ rest) =
        pref ++ (serializeSegment s ++ (serializeSegments t ++ rest)) := by
      rw [serializeSegments_cons, List.append_assoc]
    rw [hdata]
    rw [show fuel + (s :: t).length = (fuel + t.length) + 1 by
      rw [List.length_cons]; omega]
    rw [scanMarkers_step_nonSOF pref (serializeSegments t ++ rest) s
      (fuel + t.length) hs.1 hs.2]
    rw [show pref ++ (serializeSegment s ++ (serializeSegments t ++ rest))
        = (pref ++ serializeSegment s) ++ (serializeSegments t ++ rest)
      by rw [List.append_assoc]]
    rw [show pref.length + (4 + s.payload.length) =
        (pref ++ serializeSegment s).length by
      simp [serializeSegment]
      omega]
    rw [ih (pref ++ serializeSegment s) rest fuel
      (fun x hx => h x (List.mem_cons_of_mem s hx))]
    congr 1
    rw [serializeSegments_cons]
    simp [serializeSegment]
    omega

/-- C8: for every byte stream that is a serialized JPEG — SOI `FFD8`, a
run of well-formed non-SOF header segments, the first SOF segment
(marker in C0..C3, C5..C7, C9..CB, CD..CF, payload carrying
`precision(8) height(16) width(16) ...`), any further segments, then SOS
`FFDA` and arbitrary scan data — the dimension probe returns exactly the
pixel dimensions encoded in that first SOF marker, reading `height(16)`
then `width(16)` from its payload. -/
theorem C8_jpeg_first_sof_dimensions (pre post : List JpgSegment)
    (sof : JpgSegment) (scanData : List Nat)
    (hpre : ∀ s ∈ pre, wfSegmentB s = true ∧
      isSOFMarker s.marker = false)
    (hwf : wfSegmentB sof = true) (hsof : isSOFMarker sof.marker = true)
    (hplen : 5 ≤ sof.payload.length)
    (hw : sofWidth sof ≠ 0) (hh : sofHeight sof ≠ 0) :
    get_jpg_dimensions (jpgBytes (pre ++ sof :: post) scanData) =
      Except.ok (sofWidth sof, sofHeight sof) := by
  have hdata : jpgBytes (pre ++ sof :: post) scanData =
      ([0xFF, 0xD8] : List Nat) ++
        (serializeSegments pre ++
          (serializeSegment sof ++
            (serializeSegments post ++ (0xFF :: 0xDA :: scanData)))) := by
    rw [jpgBytes]
    have : serializeSegments (pre ++ sof :: post) =
        serializeSegments pre ++
          (serializeSegment sof ++ serializeSegments post) := by
      simp [serializeSegments]
    rw [this]
    simp [List.append_assoc]
  rw [hdata]
  rw [get_jpg_dimensions]
  rw [if_neg (by
    push_neg
    constructor
    · simp [serializeSegment]
      omega
    · rfl)]
  have hlenge := serializeSegments_length_ge pre
  have hlen : (([0xFF, 0xD8] : List Nat) ++
      (serializeSegments pre ++
        (serializeSegment sof ++
          (serializeSegments post ++ (0xFF :: 0xDA :: scanData))))).length
      = 2 + ((serializeSegments pre).length +
        ((4 + sof.payload.length) +
          ((serializeSegments post).length + (2 + scanData.length)))) := by
    simp [serializeSegment]
    omega
  obtain ⟨f, hf⟩ : ∃ f,
      (([0xFF, 0xD8] : List Nat) ++
        (serializeSegments pre ++
          (serializeSegment sof ++
            (serializeSegments post ++
              (0xFF :: 0xDA :: scanData))))).length =
        (f + 1) + pre.length :=
    ⟨(([0xFF, 0xD8] : List Nat) ++
        (serializeSegments pre ++
          (serializeSegment sof ++
            (serializeSegments post ++
              (0xFF :: 0xDA :: scanData))))).length - pre.length - 1,
      by rw [hlen]; omega⟩
  rw [hf]
  have hthr : scanMarkers
      (([0xFF, 0xD8] : List Nat) ++
        (serializeSegments pre ++
          (serializeSegment sof ++
            (serializeSegments post ++ (0xFF :: 0xDA :: scanData)))))
      ((f + 1) + pre.length) 2 =
    scanMarkers
      (([0xFF, 0xD8] : List Nat) ++
        (serializeSegments pre ++
          (serializeSegment sof ++
            (serializeSegments post ++ (0xFF :: 0xDA :: scanData)))))
      (f + 1) (2 + (serializeSegments pre).length) :=
    scanMarkers_through pre [0xFF, 0xD8] _ (f + 1) hpre
  rw [hthr]
  have hstep := scanMarkers_step_SOF
    (([0xFF, 0xD8] : List Nat) ++ serializeSegments pre)
    (serializeSegments post ++ (0xFF :: 0xDA :: scanData)) sof f hwf
    hsof hplen hw hh
  rw [show ([0xFF, 0xD8] : List Nat) ++
      (serializeSegments pre ++
        (serializeSegment sof ++
          (serializeSegments post ++ (0xFF :: 0xDA :: scanData)))) =
      (([0xFF, 0xD8] : List Nat) ++ serializeSegments pre) ++
        (serializeSegment sof ++
          (serializeSegments post ++ (0xFF :: 0xDA :: scanData)))
    by rw [List.append_assoc]]
  rw [show 2 + (serializeSegments pre).length =
      ((([0xFF, 0xD8] : List Nat) ++ serializeSegments pre)).length by
    simp
    omega]
  exact hstep


/-- Header segments before the SOF of the C8 witness JPEG: one APP0. -/
def c8Pre : List JpgSegment := [⟨0xE0, [0xAA, 0xBB]⟩]

/-- The SOF0 segment of the C8 witness JPEG: precision 8,
height 16, width 32. -/
def c8Sof : JpgSegment :=
  ⟨0xC0, [0x08, 0x00, 0x10, 0x00, 0x20, 0x03, 0x01, 0x02, 0x03]⟩

/-- Witness for C8: on a concrete serialized JPEG (SOI, APP0, SOF0 with
height 16 and width 32, SOS) the probe returns `(32, 16)`. -/
theorem C8_jpeg_first_sof_dimensions_witness :
    (∀ s ∈ c8Pre, wfSegmentB s = true ∧
      isSOFMarker s.marker = false) ∧
    wfSegmentB c8Sof = true ∧ isSOFMarker c8Sof.marker = true ∧
    5 ≤ c8Sof.payload.length ∧ sofWidth c8Sof ≠ 0 ∧
    sofHeight c8Sof ≠ 0 ∧
    get_jpg_dimensions (jpgBytes (c8Pre ++ c8Sof :: []) [0, 0]) =
      Except.ok (sofWidth c8Sof, sofHeight c8Sof) :=
  ⟨by decide, by decide, by decide, by decide, by decide, by decide,
    C8_jpeg_first_sof_dimensions c8Pre [] c8Sof [0, 0] (by decide)
      (by decide) (by decide) (by decide) (by decide) (by decide)⟩

end EdgeVideo
